import Mathlib

/-!
Verification of the extraction-and-retrieval pipeline of `src/lib/linkedin.js`
(LinkedIn post scraper).  The source file is shallowly embedded below: pure
functions become Lean functions, the DOM is observed through the cheerio API
surface the source actually uses, network fetches become explicit oracles, and
the concurrent download pool is modelled by an explicit completion schedule.
Helpers imported from `lib/utils.js` (which is not part of the sources under
verification) are modelled from the specification and marked as such.
String primitives are re-implemented over character lists with structural
recursion so that every definition evaluates by kernel reduction.
-/

namespace LinkedInScrape

/-! ## Character-list string primitives (kernel-reducible) -/

def listStartsWith : List Char → List Char → Bool
  | [], _ => true
  | _ :: _, [] => false
  | p :: ps, c :: cs => p == c && listStartsWith ps cs

/-- Substring test standing for the JS `String.prototype.includes`. -/
def listContainsSub (pat : List Char) : List Char → Bool
  | [] => listStartsWith pat []
  | c :: rest => listStartsWith pat (c :: rest) || listContainsSub pat rest

def strContains (s pat : String) : Bool :=
  listContainsSub pat.data s.data

def strStartsWith (s pre : String) : Bool :=
  listStartsWith pre.data s.data

def strEndsWith (s suf : String) : Bool :=
  listStartsWith suf.data.reverse s.data.reverse

/-- Split a character list at every character satisfying `p` (the separator
characters are dropped), accumulating the current chunk in reverse. -/
def splitByAux (p : Char → Bool) : List Char → List Char → List (List Char)
  | [], acc => [acc.reverse]
  | c :: rest, acc =>
    if p c then acc.reverse :: splitByAux p rest [] else splitByAux p rest (c :: acc)

def strSplitBy (p : Char → Bool) (s : String) : List String :=
  (splitByAux p s.data []).map String.mk

def strToLower (s : String) : String :=
  String.mk (s.data.map Char.toLower)

def trimChars (l : List Char) : List Char :=
  ((l.dropWhile Char.isWhitespace).reverse.dropWhile Char.isWhitespace).reverse

def strTrim (s : String) : String :=
  String.mk (trimChars s.data)

def strIntercalate (sep : String) : List String → String
  | [] => ""
  | [x] => x
  | x :: xs => x ++ sep ++ strIntercalate sep xs

def digitsVal (l : List Char) : Nat :=
  l.foldl (fun n c => n * 10 + (c.toNat - 48)) 0

/-! ## Host-library helpers modelled from the spec -/

/-- Modelled from the spec: `normalizeWhitespace` from `lib/utils.js` (not under src/):
the whitespace normalization used throughout extraction — collapse every run of
whitespace into a single space and trim the ends. -/
def normalizeWhitespace (s : String) : String :=
  strIntercalate " " ((strSplitBy Char.isWhitespace s).filter (· ≠ ""))

/-- JS call sites pass possibly-undefined values (e.g. a missing attribute);
`undefined` normalizes to the empty string. -/
def normalizeWhitespaceOpt (s : Option String) : String :=
  normalizeWhitespace (s.getD "")

/-- `hasAnyHint` from src/lib/linkedin.js: case-insensitive substring test against a
hint list; `none` stands for a JS undefined value. -/
def hasAnyHint (value : Option String) (hints : List String) : Bool :=
  let normalized := strToLower (value.getD "")
  hints.any (fun hint => strContains normalized hint)

/-! ## URL model

The source relies on the host WHATWG `URL` library (`new URL`, `pathname`,
fragment stripping, serialisation).  We model the fragment of its behaviour the
source exercises: absolute `http(s)` URLs split into scheme / host / pathname /
search / fragment, and resolution of path-absolute, protocol-relative and
plain-relative references against the canonical origin
`https://www.linkedin.com`.  Exotic inputs (other schemes, percent-encoding
normalisation) are modelled as parse failures; the source discards unparsable
candidates the same way (its `catch { continue }`). -/

structure UrlParts where
  scheme : String
  host : String
  pathname : String
  /-- includes the leading `?` when nonempty -/
  search : String
  /-- includes the leading `#` when nonempty -/
  hash : String
deriving Repr, DecidableEq

def parseAfterScheme (scheme : String) (rest : List Char) : Option UrlParts :=
  let hostChars := rest.takeWhile (fun c => c != '/' && c != '?' && c != '#')
  if hostChars = [] then none
  else
    let remainder := rest.drop hostChars.length
    let beforeHash := remainder.takeWhile (· != '#')
    let hashRest := remainder.dropWhile (· != '#')
    let pathRaw := beforeHash.takeWhile (· != '?')
    let searchRest := beforeHash.dropWhile (· != '?')
    let pathname := if pathRaw = [] then "/" else String.mk pathRaw
    some ⟨scheme, String.mk hostChars, pathname, String.mk searchRest, String.mk hashRest⟩

def parseAbsoluteUrl (s : String) : Option UrlParts :=
  if strStartsWith s "https://" then parseAfterScheme "https" (s.data.drop 8)
  else if strStartsWith s "http://" then parseAfterScheme "http" (s.data.drop 7)
  else none

def urlToString (u : UrlParts) : String :=
  u.scheme ++ "://" ++ u.host ++ u.pathname ++ u.search ++ u.hash

/-- Models `new URL(candidate, "https://www.linkedin.com")`: absolute URLs parse
as themselves, protocol-relative, path-absolute and plain-relative references
are resolved against the canonical origin. -/
def resolveUrl (candidate : String) : Option UrlParts :=
  if strStartsWith candidate "https://" || strStartsWith candidate "http://" then
    parseAbsoluteUrl candidate
  else if strStartsWith candidate "//" then
    parseAbsoluteUrl ("https:" ++ candidate)
  else if strStartsWith candidate "/" then
    parseAbsoluteUrl ("https://www.linkedin.com" ++ candidate)
  else
    parseAbsoluteUrl ("https://www.linkedin.com/" ++ candidate)

/-- Modelled from the spec: `parseUrl` from `lib/utils.js` (not under src/): parse an
absolute URL, returning null when invalid. -/
def parseUrl (s : String) : Option UrlParts :=
  parseAbsoluteUrl s

/-- `parseUrl(url)?.pathname?.toLowerCase() || ""` — the pathname access pattern the
source uses before every path-shape test. -/
def pathnameOf (url : String) : String :=
  (((parseUrl url).map (fun p => strToLower p.pathname)).getD "")

/-! ## Order-preserving URL sets

JS `Set` iteration preserves insertion order; the source materialises sets with
`[...set]`.  We model such a set as a duplicate-free list in insertion order. -/

def insertIfAbsent (s : List String) (u : String) : List String :=
  if s.contains u then s else s ++ [u]

/-- `[...new Set(l)]`: order-preserving de-duplication. -/
def dedupList (l : List String) : List String :=
  l.foldl insertIfAbsent []

/-! ## Constant tables from src/lib/linkedin.js -/

def PRIMARY_TEXT_SELECTORS : List String :=
  [".attributed-text-segment-list__content",
   ".update-components-update-v2__commentary"]

def RETRY_COUNT : Nat := 2
def MAX_MEDIA_COUNT : Nat := 40
def MAX_DOWNLOAD_COUNT : Nat := 40
def MAX_EMBED_FETCHES : Nat := 3

def POST_IMAGE_SELECTORS : List String :=
  [".update-components-image__container img",
   ".update-components-image img",
   ".update-components-carousel__container img",
   ".update-components-document__container img",
   ".update-components-article__image img",
   "img.carousel-slide__image",
   ".feed-shared-update-v2__content img[data-delayed-url]"]

def POST_VIDEO_SELECTORS : List String :=
  [".update-components-video video[src]",
   ".update-components-video video source[src]",
   ".update-components-linkedin-video video[src]",
   ".update-components-linkedin-video video source[src]",
   ".update-components-linkedin-video__container video[src]",
   ".update-components-linkedin-video__container video source[src]",
   ".update-components-linkedin-video__container video[id*=\"_html5_api\"][src]",
   ".update-components-linkedin-video__container .vjs-tech[src]",
   ".video-s-loader__video-container video[src]",
   ".video-s-loader__video-container video source[src]",
   "[data-player-id][data-sources]",
   ".feed-shared-update-v2__content video[src]",
   ".feed-shared-update-v2__content video source[src]",
   "a[href*=\"/dms/video/\"]",
   "a[href*=\"/dms/videoplayback/\"]"]

def POST_DOCUMENT_SELECTORS : List String :=
  [".update-components-document__container a[href]",
   ".update-components-document__container [data-document-url]",
   "a[href*=\"/dms/document/\"]",
   "[data-document-url*=\"/dms/document/\"]"]

def EMBED_FRAME_SELECTORS : List String :=
  [".update-components-document__container iframe[src]",
   ".update-components-document iframe[src]",
   "iframe[src*=\"/embeds/native-document\"]",
   "iframe[src*=\"media.licdn.com/embeds/\"]",
   "[data-document-url*=\"/embeds/native-document\"]"]

def INCLUDED_IMAGE_CLASS_HINTS : List String :=
  ["update-components-image", "update-components-carousel",
   "update-components-document", "carousel-slide__image", "feed-shared-image"]

def EXCLUDED_IMAGE_CLASS_HINTS : List String :=
  ["feed-shared-actor__avatar", "entityphoto", "presence-entity__image",
   "ivm-view-attr__img--centered", "global-nav",
   "org-top-card-primary-content__logo"]

def EXCLUDED_IMAGE_URL_HINTS : List String :=
  ["profile-displayphoto", "company-logo", "school-logo",
   "profile-framedphoto", "ghost-person"]

def MIME_TO_EXTENSION : List (String × String) :=
  [("image/jpeg", "jpg"), ("image/jpg", "jpg"), ("image/png", "png"),
   ("image/webp", "webp"), ("image/gif", "gif"), ("image/heic", "heic"),
   ("image/heif", "heif"), ("video/mp4", "mp4"), ("video/webm", "webm"),
   ("video/quicktime", "mov"), ("video/mpeg", "mpeg"),
   ("application/pdf", "pdf"), ("application/octet-stream", "bin")]

/-- The own-key table lookup on `MIME_TO_EXTENSION` (the spec's MIME→extension
lookup table). -/
def mimeToExtensionTable (mime : String) : Option String :=
  MIME_TO_EXTENSION.lookup mime

/-- The JS property read `MIME_TO_EXTENSION[mime]` of the source: the table is a
plain object literal, so the read also finds the properties it inherits from
`Object.prototype`.  The looked-up `mime` is already lowercased, hence exactly
two inherited keys are reachable: `constructor` (the `Object` constructor
function) and `__proto__` (the prototype object).  Both are truthy — the
`||` chain of `mediaFilename` accepts them — and the template literal
stringifies them; we represent each inherited value by that stringification,
its only observable use. -/
def mimeToExtension (mime : String) : Option String :=
  match mimeToExtensionTable mime with
  | some e => some e
  | none =>
    if mime = "constructor" then some "function Object() \x7b [native code] \x7d"
    else if mime = "__proto__" then some "[object Object]"
    else none

/-! ## addCandidateUrl -/

/-- `addCandidateUrl` from src/lib/linkedin.js: split a raw attribute value into
candidate URL tokens (on commas, then first whitespace-separated token of each
part), resolve each against the canonical origin, strip the fragment, and admit
the serialised URL into the running set only when the validator accepts it and
it is not already present.  Returns the updated set with the newly added URLs.
Every call site in src/lib/linkedin.js uses the default validator
`isAllowedLinkedInMediaUrl` (imported from `lib/utils.js`, hence passed here as
the explicit `validator` argument). -/
def addCandidateStep (validator : String → Bool)
    (acc : List String × List String) (part : String) :
    List String × List String :=
  let candidate := ((strSplitBy Char.isWhitespace part).filter (· ≠ "")).headD ""
  if candidate = "" then acc
  else
    match resolveUrl candidate with
    | none => acc
    | some parsed =>
      let normalized := urlToString { parsed with hash := "" }
      if validator normalized then
        if acc.1.contains normalized then acc
        else (acc.1 ++ [normalized], acc.2 ++ [normalized])
      else acc

def addCandidateUrl (validator : String → Bool) (urlSet : List String)
    (rawUrl : Option String) : List String × List String :=
  let value := normalizeWhitespaceOpt rawUrl
  if value = "" then (urlSet, [])
  else
    let parts := if strContains value "," then strSplitBy (· = ',') value else [value]
    parts.foldl (addCandidateStep validator) (urlSet, [])

example :
    addCandidateUrl (fun _ => true) [] (some "https://media.licdn.com/dms/image/abc#frag") =
      (["https://media.licdn.com/dms/image/abc"], ["https://media.licdn.com/dms/image/abc"]) := by
  decide

example :
    addCandidateUrl (fun _ => true) [] (some "/dms/image/x 640w, /dms/image/y 1280w") =
      (["https://www.linkedin.com/dms/image/x", "https://www.linkedin.com/dms/image/y"],
       ["https://www.linkedin.com/dms/image/x", "https://www.linkedin.com/dms/image/y"]) := by
  decide

example : addCandidateUrl (fun _ => false) [] (some "https://media.licdn.com/a") = ([], []) := by
  decide

/-! ## DOM model

A DOM element is observed through exactly the cheerio calls src/lib/linkedin.js
performs on it: attribute lookup, text content, inner HTML, the parent's class
attribute, the class attribute of the nearest classed ancestor
(`$element.closest("[class]")`), and membership in a known post-media container
(`$element.closest(POST_MEDIA_CONTAINER_SELECTOR).length > 0`).  A document is
observed through `$(selector)`, returning matches in document order. -/

structure Element where
  attr : String → Option String
  text : String
  innerHtml : Option String
  parentClassAttr : Option String
  closestClassAttr : Option String
  inPostMediaContainer : Bool

structure Doc where
  select : String → List Element

/-- `$('meta[property="<p>"]').attr("content")`: cheerio `.attr` on a selection
reads the first matched element (undefined on an empty selection). -/
def Doc.metaContent (doc : Doc) (property : String) : Option String :=
  ((doc.select ("meta[property=\"" ++ property ++ "\"]")).head?).bind
    (fun e => e.attr "content")

/-! ## Text extraction -/

/-- `hasAuthWall` from src/lib/linkedin.js. -/
def hasAuthWall (doc : Doc) : Bool :=
  let title := strToLower (normalizeWhitespaceOpt ((doc.select "title").head?.map Element.text))
  let ogTitle := strToLower (normalizeWhitespaceOpt (doc.metaContent "og:title"))
  let combined := title ++ " " ++ ogTitle
  strContains combined "sign in" || strContains combined "log in" ||
    strContains combined "join linkedin" || strContains combined "linkedin login"

/-- `isLowValueFallbackText` from src/lib/linkedin.js. -/
def isLowValueFallbackText (text : String) : Bool :=
  let normalized := strToLower (normalizeWhitespace text)
  if normalized = "" then true
  else
    strContains normalized "join linkedin" || strContains normalized "sign in" ||
      strContains normalized "log in" || strContains normalized "linkedin: log in"

/-- The normalized nonempty text chunks contributed by one selector
(the body of the `$(selector).each` loop in `extractPostText`). -/
def chunksOf (doc : Doc) (selector : String) : List String :=
  ((doc.select selector).map (fun e => normalizeWhitespace e.text)).filter (· ≠ "")

/-- The selector loop of `extractPostText`: accumulate chunks selector by
selector and break out of the loop as soon as the accumulator is nonempty. -/
def textChunksLoop (doc : Doc) : List String → List String → List String
  | chunks, [] => chunks
  | chunks, selector :: rest =>
    let chunks := chunks ++ chunksOf doc selector
    if chunks.length > 0 then chunks else textChunksLoop doc chunks rest

/-- `extractPostText` from src/lib/linkedin.js. -/
def extractPostText (doc : Doc) : String :=
  let chunks := textChunksLoop doc [] PRIMARY_TEXT_SELECTORS
  if chunks.length > 0 then strIntercalate "\n\n" (dedupList chunks)
  else
    let ogDescription := normalizeWhitespaceOpt (doc.metaContent "og:description")
    let ogTitle := normalizeWhitespaceOpt (doc.metaContent "og:title")
    let fallback := if ogDescription ≠ "" then ogDescription else ogTitle
    if isLowValueFallbackText fallback then "" else fallback

/-! ## Image extraction -/

/-- `parseNumericDimension` from src/lib/linkedin.js (`Number.parseInt` semantics on
the values the source feeds it: leading whitespace, optional sign, leading
digits; non-positive results are rejected). -/
def parseNumericDimension (value : Option String) : Option Nat :=
  match value with
  | none => none
  | some v =>
    if v = "" then none
    else
      let t := (v.data).dropWhile Char.isWhitespace
      let neg := listStartsWith ['-'] t
      let t := if listStartsWith ['+'] t || neg then t.drop 1 else t
      let digits := t.takeWhile Char.isDigit
      if digits = [] then none
      else if neg then none
      else
        let n := digitsVal digits
        if n = 0 then none else some n

/-- `isLikelyPostImageElement` from src/lib/linkedin.js. -/
def isLikelyPostImageElement (element : Element) (urlValue : String) : Bool :=
  match parseUrl urlValue with
  | none => false
  | some parsed =>
    let pathname := strToLower parsed.pathname
    if !strContains pathname "/dms/image/" then false
    else if hasAnyHint (some pathname) EXCLUDED_IMAGE_URL_HINTS then false
    else
      let classBlob := strToLower (strIntercalate " "
        ((([element.attr "class", element.parentClassAttr,
            element.closestClassAttr]).filterMap id).filter (· ≠ "")))
      if hasAnyHint (some classBlob) EXCLUDED_IMAGE_CLASS_HINTS then false
      else
        let inKnownMediaContainer := element.inPostMediaContainer
        let hasStrongClassSignal := hasAnyHint (some classBlob) INCLUDED_IMAGE_CLASS_HINTS
        if !inKnownMediaContainer && !hasStrongClassSignal then false
        else
          let width := parseNumericDimension (element.attr "width")
          let height := parseNumericDimension (element.attr "height")
          let tooSmall := (width.isSome && width.getD 0 < 140) ||
            (height.isSome && height.getD 0 < 140)
          if tooSmall && !hasStrongClassSignal then false
          else true

/-- `extractImageUrls` from src/lib/linkedin.js. -/
def extractImageUrls (validator : String → Bool) (doc : Doc) : List String :=
  let imageSet := POST_IMAGE_SELECTORS.foldl (fun imageSet selector =>
    (doc.select selector).foldl (fun imageSet element =>
      let candidates := [element.attr "src", element.attr "srcset",
        element.attr "data-delayed-url", element.attr "data-ghost-url"]
      candidates.foldl (fun imageSet candidate =>
        let added := addCandidateUrl validator imageSet candidate
        added.2.foldl (fun s addedUrl =>
          if !isLikelyPostImageElement element addedUrl then s.erase addedUrl else s)
          added.1) imageSet) imageSet) []
  imageSet.take MAX_MEDIA_COUNT

/-! ## Path-shape predicates -/

/-- `isLikelyImageMediaPath` from src/lib/linkedin.js. -/
def isLikelyImageMediaPath (pathname : String) : Bool :=
  let normalized := strToLower pathname
  if !strContains normalized "/dms/image/" then false
  else !hasAnyHint (some normalized) EXCLUDED_IMAGE_URL_HINTS

/-- `isLikelyVideoMediaPath` from src/lib/linkedin.js. -/
def isLikelyVideoMediaPath (pathname : String) : Bool :=
  let normalized := strToLower pathname
  strContains normalized "/dms/video/" || strContains normalized "/dms/videoplayback/"

/-- `isLikelyDocumentMediaPath` from src/lib/linkedin.js. -/
def isLikelyDocumentMediaPath (pathname : String) : Bool :=
  strContains (strToLower pathname) "/dms/document/"

/-! ## Script / embedded-pattern channels

The source builds regular expressions and matches them with the host regex
engine (a library external to src/).  The matching step itself is modelled as
an oracle: `embedded kind source` stands for matching the
`extractEmbeddedMediaUrls` pattern family for `kind` against the decoded
source, `script mediaKind body` for matching the escaped and plain
`extractScriptMediaUrls` patterns against a raw script body, and `style value`
for the `url(...)` capture loop of `extractStyleUrls`.  Every claim proved
below holds for an arbitrary oracle. -/

structure RegexOracle where
  embedded : String → String → List String
  script : String → String → List String
  style : String → List String

/-- `decodeEscapedUrl` from src/lib/linkedin.js (the case-insensitive `/`
pattern is modelled by the two casings of the hex digit). -/
def decodeSlashChars : List Char → List Char
  | '\\' :: 'u' :: '0' :: '0' :: '2' :: 'F' :: rest => '/' :: decodeSlashChars rest
  | '\\' :: 'u' :: '0' :: '0' :: '2' :: 'f' :: rest => '/' :: decodeSlashChars rest
  | '\\' :: '/' :: rest => '/' :: decodeSlashChars rest
  | c :: rest => c :: decodeSlashChars rest
  | [] => []

def decodeAmpChars : List Char → List Char
  | '&' :: 'a' :: 'm' :: 'p' :: ';' :: rest => '&' :: decodeAmpChars rest
  | c :: rest => c :: decodeAmpChars rest
  | [] => []

/-- `decodeEscapedUrl` from src/lib/linkedin.js (the case-insensitive `/`
replacement is modelled by the two casings of the final hex digit). -/
def decodeEscapedUrl (s : String) : String :=
  String.mk (decodeAmpChars (decodeSlashChars s.data))

/-- `extractEmbeddedMediaUrls` from src/lib/linkedin.js: decode, match the
pattern family for `kind`, de-duplicate. -/
def extractEmbeddedMediaUrls (rx : RegexOracle) (rawValue : Option String)
    (kind : String) : List String :=
  let source := decodeEscapedUrl (rawValue.getD "")
  if source = "" then [] else dedupList (rx.embedded kind source)

/-- `extractScriptMediaUrls` from src/lib/linkedin.js: scan inline script bodies
(skipping empty bodies and bodies above the 2,000,000-character ceiling) for the
escaped and plain resource-path patterns, decode each match and admit it through
`addCandidateUrl`. -/
def extractScriptMediaUrls (rx : RegexOracle) (validator : String → Bool)
    (doc : Doc) (kind : String) : List String :=
  let kinds := if kind = "video" then ["video", "videoplayback"] else [kind]
  (doc.select "script").foldl (fun mediaSet element =>
    match element.innerHtml with
    | none => mediaSet
    | some scriptBody =>
      if scriptBody = "" || scriptBody.data.length > 2000000 then mediaSet
      else
        kinds.foldl (fun mediaSet mediaKind =>
          (rx.script mediaKind scriptBody).foldl (fun mediaSet m =>
            (addCandidateUrl validator mediaSet (some (decodeEscapedUrl m))).1)
            mediaSet) mediaSet) []

/-- `extractStyleUrls` from src/lib/linkedin.js. -/
def extractStyleUrls (rx : RegexOracle) (styleValue : Option String) : List String :=
  let source := styleValue.getD ""
  if !strContains source "url(" then [] else rx.style source

/-! ## Video / document extraction -/

def VIDEO_ATTRIBUTE_CANDIDATES : List String :=
  ["src", "href", "data-delayed-url", "data-mp4-source-url", "data-video-url",
   "data-source-url", "data-manifest-url", "data-sources", "data-player-config",
   "style"]

/-- The DOM-attribute pass of `extractVideoUrls` (the selector loop). -/
def extractVideoUrlsDom (rx : RegexOracle) (validator : String → Bool) (doc : Doc) :
    List String :=
  POST_VIDEO_SELECTORS.foldl (fun videoSet selector =>
    (doc.select selector).foldl (fun videoSet element =>
      let videoSet := VIDEO_ATTRIBUTE_CANDIDATES.foldl (fun videoSet attrName =>
        let attrValue := element.attr attrName
        let videoSet := (addCandidateUrl validator videoSet attrValue).1
        (extractEmbeddedMediaUrls rx attrValue "video").foldl (fun s m =>
          (addCandidateUrl validator s (some m)).1) videoSet) videoSet
      (extractEmbeddedMediaUrls rx element.innerHtml "video").foldl (fun s m =>
        (addCandidateUrl validator s (some m)).1) videoSet) videoSet) []

/-- `extractVideoUrls` from src/lib/linkedin.js. -/
def extractVideoUrls (rx : RegexOracle) (validator : String → Bool) (doc : Doc) :
    List String :=
  let videoSet := extractVideoUrlsDom rx validator doc
  let scriptVideos := extractScriptMediaUrls rx validator doc "video"
  let videoSet := scriptVideos.foldl insertIfAbsent videoSet
  let videoSet :=
    if videoSet.length = 0 then
      let s := (addCandidateUrl validator videoSet (doc.metaContent "og:video")).1
      (addCandidateUrl validator s (doc.metaContent "og:video:secure_url")).1
    else videoSet
  (videoSet.filter (fun url => isLikelyVideoMediaPath (pathnameOf url))).take
    MAX_MEDIA_COUNT

/-- The DOM-attribute pass of `extractDocumentUrls` (the selector loop). -/
def extractDocumentUrlsDom (validator : String → Bool) (doc : Doc) : List String :=
  POST_DOCUMENT_SELECTORS.foldl (fun s selector =>
    (doc.select selector).foldl (fun s element =>
      let s := (addCandidateUrl validator s (element.attr "href")).1
      let s := (addCandidateUrl validator s (element.attr "data-document-url")).1
      (addCandidateUrl validator s (element.attr "src")).1) s) []

/-- `extractDocumentUrls` from src/lib/linkedin.js. -/
def extractDocumentUrls (rx : RegexOracle) (validator : String → Bool) (doc : Doc) :
    List String :=
  let documentSet := extractDocumentUrlsDom validator doc
  let documentSet :=
    if documentSet.length = 0 then
      (extractScriptMediaUrls rx validator doc "document").foldl insertIfAbsent
        documentSet
    else documentSet
  (documentSet.filter (fun url => isLikelyDocumentMediaPath (pathnameOf url))).take
    MAX_MEDIA_COUNT

/-- `extractOgImageFallback` from src/lib/linkedin.js. -/
def extractOgImageFallback (validator : String → Bool) (doc : Doc) : List String :=
  let ogSet := (addCandidateUrl validator [] (doc.metaContent "og:image")).1
  let ogSet := (addCandidateUrl validator ogSet (doc.metaContent "og:image:secure_url")).1
  (ogSet.filter (fun url => isLikelyImageMediaPath (pathnameOf url))).take
    MAX_MEDIA_COUNT

/-! ## Embed frame resolver -/

def EMBED_FRAME_ATTRIBUTES : List String :=
  ["src", "data-document-url", "data-embed-url", "href"]

/-- `extractEmbedFrameUrls` from src/lib/linkedin.js.  Note that the final filter
re-applies the same validator the candidates already passed in
`addCandidateUrl` (`isAllowedLinkedInMediaUrl` at the source). -/
def extractEmbedFrameUrls (validator : String → Bool) (doc : Doc) : List String :=
  let frameSet := EMBED_FRAME_SELECTORS.foldl (fun s selector =>
    (doc.select selector).foldl (fun s element =>
      EMBED_FRAME_ATTRIBUTES.foldl (fun s attr =>
        (addCandidateUrl validator s (element.attr attr)).1) s) s) []
  (frameSet.filter (fun url =>
    match parseUrl url with
    | none => false
    | some parsed =>
      validator url && strContains (strToLower parsed.pathname) "/embeds/")).take
    MAX_EMBED_FETCHES

def EMBED_DOM_SELECTORS : List String :=
  ["img", "source", "video", "a", "iframe", "[style]", "[data-src]",
   "[data-sources]", "[data-player-config]", "[data-video-url]",
   "[data-document-url]", "[data-slide-image-url]", "[data-carousel-image-url]"]

def EMBED_DOM_ATTRIBUTES : List String :=
  ["src", "srcset", "href", "data-src", "data-delayed-url", "data-ghost-url",
   "data-lazy-src", "data-thumb-url", "data-url", "data-document-url",
   "data-video-url", "data-slide-image-url", "data-carousel-image-url",
   "data-mp4-source-url", "data-source-url", "data-manifest-url",
   "data-sources", "data-player-config", "style"]

structure MediaSets where
  imageUrls : List String
  videoUrls : List String
  documentUrls : List String
deriving Repr, DecidableEq

def emptyMediaSets : MediaSets := ⟨[], [], []⟩

/-- The candidate scan of `extractMediaFromEmbedDom`: the generalized
selector/attribute sweep over a fetched frame document. -/
def embedDomCandidates (rx : RegexOracle) (validator : String → Bool) (doc : Doc) :
    List String :=
  let candidateSet := (doc.select (strIntercalate ", " EMBED_DOM_SELECTORS)).foldl
    (fun s element =>
      EMBED_DOM_ATTRIBUTES.foldl (fun s attr =>
        match element.attr attr with
        | none => s
        | some value =>
          if value = "" then s
          else
            let s := (addCandidateUrl validator s (some value)).1
            let s := (extractStyleUrls rx (some value)).foldl (fun s styleUrl =>
              (addCandidateUrl validator s (some styleUrl)).1) s
            (["image", "video", "document"]).foldl (fun s kind =>
              (extractEmbeddedMediaUrls rx (some value) kind).foldl (fun s u =>
                (addCandidateUrl validator s (some u)).1) s) s) s) []
  (["image", "video", "document"]).foldl (fun s kind =>
    (extractScriptMediaUrls rx validator doc kind).foldl insertIfAbsent s)
    candidateSet

/-- The per-candidate classification step of `extractMediaFromEmbedDom`. -/
def classifyStep (acc : MediaSets) (url : String) : MediaSets :=
  let pathname := pathnameOf url
  if isLikelyImageMediaPath pathname then
    { acc with imageUrls := insertIfAbsent acc.imageUrls url }
  else if isLikelyVideoMediaPath pathname then
    { acc with videoUrls := insertIfAbsent acc.videoUrls url }
  else if isLikelyDocumentMediaPath pathname then
    { acc with documentUrls := insertIfAbsent acc.documentUrls url }
  else acc

/-- `extractMediaFromEmbedDom` from src/lib/linkedin.js: generalized candidate scan
over a fetched frame document, then classification of the candidate set into
image/video/document sets by path shape, each capped at `MAX_MEDIA_COUNT`. -/
def extractMediaFromEmbedDom (rx : RegexOracle) (validator : String → Bool)
    (doc : Doc) : MediaSets :=
  let sets := (embedDomCandidates rx validator doc).foldl classifyStep emptyMediaSets
  ⟨sets.imageUrls.take MAX_MEDIA_COUNT, sets.videoUrls.take MAX_MEDIA_COUNT,
   sets.documentUrls.take MAX_MEDIA_COUNT⟩

/-! ## Network oracles -/

/-- `response.ok` of the fetch API. -/
def statusOk (status : Nat) : Bool :=
  200 ≤ status && status < 300

/-- A fetched HTML page as the source consumes it (`response.status`, then
`response.text()` parsed by `cheerio.load`). -/
structure HtmlResponse where
  status : Nat
  doc : Doc

/-- An embed-frame or page fetch, as an oracle from the URL to its outcome.
`.error ()` models a thrown fetch error (timeout, blocked redirect, transport
failure, body-read failure). -/
def HtmlNet : Type := String → Except Unit HtmlResponse

/-- The contribution of a single embed frame inside `extractMediaFromEmbeds`:
the body of the per-frame task, whose `try/catch` turns any fetch failure or
non-success status into an empty contribution. -/
def embedFrameContribution (rx : RegexOracle) (validator : String → Bool)
    (embedNet : HtmlNet) (frameUrl : String) : MediaSets :=
  match embedNet frameUrl with
  | .error _ => emptyMediaSets
  | .ok response =>
    if !statusOk response.status then emptyMediaSets
    else extractMediaFromEmbedDom rx validator response.doc

/-- `extractMediaFromEmbeds` from src/lib/linkedin.js.  The per-frame fetches run
in a bounded pool (`EMBED_FETCH_CONCURRENCY = 2`) and `Promise.all` assembles
their results in task order, so the merge below is completion-order
independent by construction. -/
def extractMediaFromEmbeds (rx : RegexOracle) (validator : String → Bool)
    (embedNet : HtmlNet) (doc : Doc) : MediaSets :=
  let frameUrls := extractEmbedFrameUrls validator doc
  if frameUrls.length = 0 then emptyMediaSets
  else
    let settled := frameUrls.map (embedFrameContribution rx validator embedNet)
    let imageSet := settled.foldl (fun s r => r.imageUrls.foldl insertIfAbsent s) []
    let videoSet := settled.foldl (fun s r => r.videoUrls.foldl insertIfAbsent s) []
    let documentSet := settled.foldl (fun s r => r.documentUrls.foldl insertIfAbsent s) []
    ⟨imageSet.take MAX_MEDIA_COUNT, videoSet.take MAX_MEDIA_COUNT,
     documentSet.take MAX_MEDIA_COUNT⟩

/-! ## scrapeOnce and the retry orchestrator -/

inductive ErrorCode
  | INVALID_URL
  | PRIVATE_OR_PROTECTED
  | SCRAPE_FAILED
  | TEXT_NOT_FOUND
deriving Repr, DecidableEq

/-- `LinkedInExtractionError` from src/lib/linkedin.js. -/
structure LinkedInExtractionError where
  code : ErrorCode
  message : String
deriving Repr, DecidableEq

/-- An error escaping `scrapeOnce`: either a thrown `LinkedInExtractionError` or a
transport error thrown by the guarded fetch itself. -/
inductive ScrapeError
  | extraction (e : LinkedInExtractionError)
  | transport
deriving Repr, DecidableEq

structure ExtractionResult where
  text : String
  imageUrls : List String
  videoUrls : List String
  documentUrls : List String
deriving Repr, DecidableEq

/-- The success path of `scrapeOnce` once the page document is in hand: text
extraction, the three page-level media channels, the embed channel, merging,
and the og:image fallback when nothing was found. -/
def assembleResult (rx : RegexOracle) (validator : String → Bool)
    (embedNet : HtmlNet) (doc : Doc) : ExtractionResult :=
  let text := extractPostText doc
  let pageImageUrls := extractImageUrls validator doc
  let pageVideoUrls := extractVideoUrls rx validator doc
  let pageDocumentUrls := extractDocumentUrls rx validator doc
  let embedMedia := extractMediaFromEmbeds rx validator embedNet doc
  let imageSet := dedupList (pageImageUrls ++ embedMedia.imageUrls)
  let videoSet := dedupList (pageVideoUrls ++ embedMedia.videoUrls)
  let documentSet := dedupList (pageDocumentUrls ++ embedMedia.documentUrls)
  let imageSet :=
    if imageSet.length = 0 && videoSet.length = 0 && documentSet.length = 0 then
      (extractOgImageFallback validator doc).foldl insertIfAbsent imageSet
    else imageSet
  ⟨text, imageSet.take MAX_MEDIA_COUNT, videoSet.take MAX_MEDIA_COUNT,
   documentSet.take MAX_MEDIA_COUNT⟩

/-- `scrapeOnce` from src/lib/linkedin.js.  `page` is the outcome of the guarded
fetch of the post URL.  (The `ENABLE_HEADLESS` toggle only logs a diagnostic and
has no behavioral effect on the result, so it does not appear in the model.) -/
def scrapeOnce (rx : RegexOracle) (validator : String → Bool) (embedNet : HtmlNet)
    (page : Except Unit HtmlResponse) : Except ScrapeError ExtractionResult :=
  match page with
  | .error _ => .error .transport
  | .ok response =>
    if response.status = 401 || response.status = 403 || response.status = 999 then
      .error (.extraction ⟨.PRIVATE_OR_PROTECTED,
        "LinkedIn returned " ++ toString response.status⟩)
    else if !statusOk response.status then
      .error (.extraction ⟨.SCRAPE_FAILED,
        "LinkedIn returned " ++ toString response.status⟩)
    else if hasAuthWall response.doc then
      .error (.extraction ⟨.PRIVATE_OR_PROTECTED,
        "LinkedIn page requires authentication"⟩)
    else
      let result := assembleResult rx validator embedNet response.doc
      if result.text = "" then
        .error (.extraction ⟨.TEXT_NOT_FOUND, "Could not extract post text"⟩)
      else .ok result

/-- The observable outcome of a retried computation: the final result, the
`onRetry` observer invocations `(error, attempt number)` in order, and the
number of attempts actually executed. -/
structure RetryOutcome (ε α : Type) where
  result : Except ε α
  retryLog : List (ε × Nat)
  attempts : Nat
deriving Repr

def withRetriesGo (f : Nat → Except ε α) :
    Nat → List (ε × Nat) → Nat → RetryOutcome ε α
  | attemptIdx, log, remaining =>
    match f attemptIdx with
    | .ok a => ⟨.ok a, log, attemptIdx + 1⟩
    | .error e =>
      match remaining with
      | 0 => ⟨.error e, log, attemptIdx + 1⟩
      | r + 1 => withRetriesGo f (attemptIdx + 1) (log ++ [(e, attemptIdx + 1)]) r

/-- Modelled from the spec: `withRetries` from `lib/utils.js` (not under src/), per
section 4.6: re-run the whole computation from scratch until it succeeds or the
retry budget is exhausted, invoking the observer with the error and the attempt
number before each retry, and propagating the last error unchanged.  `f` is
indexed by the attempt number so the model can represent a world that changes
between attempts (the source re-runs the same thunk against a changed world). -/
def withRetries (f : Nat → Except ε α) (retries : Nat) : RetryOutcome ε α :=
  withRetriesGo f 0 [] retries

/-- Modelled from the spec: `assertValidLinkedInPostUrl` from `lib/utils.js` (not
under src/), per sections 4.1 and 8 and the README: strict validation that the
input is a well-formed `https://www.linkedin.com/...` post URL (non-root
path). -/
def isValidLinkedInPostUrl (url : String) : Bool :=
  match parseAbsoluteUrl url with
  | none => false
  | some p =>
    p.scheme = "https" && p.host = "www.linkedin.com" && p.pathname ≠ "/"

/-- `scrapeLinkedInPost` from src/lib/linkedin.js: validate the URL shape first
(an invalid URL throws `INVALID_URL` before the retry loop is entered), then run
`scrapeOnce` under `withRetries`.  `pages` gives the page-fetch outcome for each
attempt. -/
def scrapeLinkedInPost (rx : RegexOracle) (validator : String → Bool)
    (embedNet : HtmlNet) (pages : Nat → Except Unit HtmlResponse)
    (postUrl : String) : RetryOutcome ScrapeError ExtractionResult :=
  if !isValidLinkedInPostUrl postUrl then
    ⟨.error (.extraction ⟨.INVALID_URL, "Invalid LinkedIn post URL"⟩), [], 0⟩
  else
    withRetries (fun attempt => scrapeOnce rx validator embedNet (pages attempt))
      RETRY_COUNT

/-! ## Media download -/

/-- A media fetch response as the source consumes it: status, content-type
header, body bytes. -/
structure MediaResponse where
  status : Nat
  contentType : Option String
  body : List UInt8
deriving Repr, DecidableEq

/-- The media-download network as an oracle; `.error ()` models a thrown fetch or
body-read error. -/
def MediaNet : Type := String → Except Unit MediaResponse

/-- A caller-supplied `{url, type}` entry; either field may be absent
(`entry?.url` / `entry?.type` in the source; a null list slot behaves as an
entry with both fields absent). -/
structure RawMediaEntry where
  url : Option String
  type : Option String

structure MediaRequest where
  url : String
  requestedType : String
deriving Repr, DecidableEq

structure DownloadedMedia where
  url : String
  buffer : List UInt8
  mediaType : String
  mimeType : String
  filename : String
deriving Repr, DecidableEq

/-- `extensionFromUrl` from src/lib/linkedin.js: the `\.([a-z0-9]{2,5})$` suffix of
the URL's own path, lowercased (`new URL(urlValue)` without a base, so only
absolute URLs parse). -/
def extensionFromUrl (urlValue : String) : Option String :=
  match parseAbsoluteUrl urlValue with
  | none => none
  | some u =>
    let pathChars := u.pathname.data
    if !pathChars.contains '.' then none
    else
      let ext := (pathChars.reverse.takeWhile (· != '.')).reverse
      if 2 ≤ ext.length && ext.length ≤ 5 && ext.all Char.isAlphanum then
        some (strToLower (String.mk ext))
      else none

/-- `inferMediaType` from src/lib/linkedin.js. -/
def inferMediaType (requestedType : String) (mimeType : String)
    (sourceUrl : String) : Option String :=
  let normalizedMime := strToLower mimeType
  let pathname := pathnameOf sourceUrl
  if strStartsWith normalizedMime "text/html" then none
  else if strStartsWith normalizedMime "image/" then some "image"
  else if strStartsWith normalizedMime "video/" then some "video"
  else if normalizedMime = "application/pdf" then some "document"
  else if strContains pathname "/dms/document/" || strEndsWith pathname ".pdf" then
    some "document"
  else if strContains pathname "/dms/video/" ||
      strContains pathname "/dms/videoplayback/" ||
      strEndsWith pathname ".mp4" || strEndsWith pathname ".mov" ||
      strEndsWith pathname ".webm" || strEndsWith pathname ".mpeg" then
    some "video"
  else if strContains pathname "/dms/image/" then some "image"
  else if (normalizedMime = "" || normalizedMime = "application/octet-stream") &&
      (requestedType = "image" || requestedType = "video" ||
        requestedType = "document") then
    some requestedType
  else none

/-- The `mimeType.split(";")[0].trim().toLowerCase()` step of `mediaFilename`. -/
def normalizedMimeOf (mimeType : String) : String :=
  strToLower (strTrim (String.mk (mimeType.data.takeWhile (· != ';'))))

/-- The extension chain of `mediaFilename`:
`MIME_TO_EXTENSION[mime] || extensionFromUrl(sourceUrl) || "jpg"`. -/
def mediaExtension (mimeType : String) (sourceUrl : String) : String :=
  match mimeToExtension (normalizedMimeOf mimeType) with
  | some e => e
  | none =>
    match extensionFromUrl sourceUrl with
    | some e => e
    | none => "jpg"

/-- `mediaFilename` from src/lib/linkedin.js. -/
def mediaFilename (index : Nat) (mediaType : String) (mimeType : String)
    (sourceUrl : String) : String :=
  "linkedin-" ++ mediaType ++ "-" ++ toString (index + 1) ++ "." ++
    mediaExtension mimeType sourceUrl

/-- The de-duplication loop at the head of `downloadLinkedInMedia`: normalize each
entry's URL, skip empty/duplicate/disallowed URLs, default a missing or empty
type to `"image"`, preserving first-occurrence order. -/
def dedupMediaStep (validator : String → Bool)
    (acc : List MediaRequest × List String) (entry : RawMediaEntry) :
    List MediaRequest × List String :=
  let url := normalizeWhitespaceOpt entry.url
  if url = "" || acc.2.contains url || !validator url then acc
  else
    (acc.1 ++ [⟨url,
      match entry.type with
      | none => "image"
      | some t => if t = "" then "image" else t⟩],
     acc.2 ++ [url])

def dedupMediaEntries (validator : String → Bool)
    (mediaEntries : Option (List RawMediaEntry)) : List MediaRequest :=
  ((mediaEntries.getD []).foldl (dedupMediaStep validator)
    (([] : List MediaRequest), ([] : List String))).1

/-- The entries `downloadLinkedInMedia` actually attempts to fetch: the
de-duplicated list capped at `MAX_DOWNLOAD_COUNT`. -/
def attemptedEntries (validator : String → Bool)
    (mediaEntries : Option (List RawMediaEntry)) : List MediaRequest :=
  (dedupMediaEntries validator mediaEntries).take MAX_DOWNLOAD_COUNT

/-- The body of one download task in `downloadLinkedInMedia` (its `try/catch`
returns null — here `none` — on any failure: thrown fetch error, non-success
status, empty body, or unsupported content type). -/
def downloadOne (net : MediaNet) (index : Nat) (entry : MediaRequest) :
    Option DownloadedMedia :=
  match net entry.url with
  | .error _ => none
  | .ok response =>
    if !statusOk response.status then none
    else
      let contentTypeHeader := strToLower (response.contentType.getD "")
      let mimeType := strTrim (String.mk (contentTypeHeader.data.takeWhile (· != ';')))
      if response.body.length = 0 then none
      else
        match inferMediaType entry.requestedType mimeType entry.url with
        | none => none
        | some mediaType =>
          some ⟨entry.url, response.body, mediaType, mimeType,
            mediaFilename index mediaType mimeType entry.url⟩

/-- `Promise.all` under an explicit completion schedule: each task writes its own
result into the slot carrying its index; `sched` is the order in which the
p-limit pool completes the tasks. -/
def runTasks {α : Type} (tasks : List (Option α)) (sched : List Nat) :
    List (Option α) :=
  sched.foldl (fun out i => out.set i (tasks.getD i none))
    (List.replicate tasks.length none)

/-- `downloadLinkedInMedia` from src/lib/linkedin.js: de-duplicate and validate the
request list, return early when nothing survives, cap at
`MAX_DOWNLOAD_COUNT`, fetch each entry concurrently (`DOWNLOAD_CONCURRENCY = 3`,
completion order `sched`), and drop failed entries (`result.filter(Boolean)`). -/
def downloadLinkedInMedia (validator : String → Bool) (net : MediaNet)
    (sched : List Nat) (mediaEntries : Option (List RawMediaEntry)) :
    List DownloadedMedia :=
  let dedupedEntries := dedupMediaEntries validator mediaEntries
  if dedupedEntries.length = 0 then []
  else
    let entries := dedupedEntries.take MAX_DOWNLOAD_COUNT
    let downloads := entries.enum.map (fun p => downloadOne net p.1 p.2)
    (runTasks downloads sched).filterMap id

/-! ## Generic fold / set invariants -/

theorem foldl_inv {α : Type _} {β : Type _} {P : α → Prop} {step : α → β → α}
    (l : List β) (s : α) (h0 : P s)
    (hstep : ∀ a b, b ∈ l → P a → P (step a b)) : P (l.foldl step s) := by
  induction l generalizing s with
  | nil => exact h0
  | cons x xs ih =>
    exact ih _ (hstep _ _ (by simp) h0)
      (fun a b hb ha => hstep a b (by simp [hb]) ha)

/-- Every URL of the list passes the validator. -/
def allAllowed (validator : String → Bool) (l : List String) : Prop :=
  ∀ u ∈ l, validator u = true

theorem allAllowed_nil {v : String → Bool} : allAllowed v [] := by
  intro u hu; cases hu

theorem allAllowed_insertIfAbsent {v : String → Bool} {s : List String} {u : String}
    (h : allAllowed v s) (hu : v u = true) : allAllowed v (insertIfAbsent s u) := by
  unfold insertIfAbsent
  split
  · exact h
  · intro x hx
    rcases List.mem_append.1 hx with h1 | h2
    · exact h x h1
    · rcases List.mem_singleton.1 h2 with rfl
      exact hu

theorem allAllowed_erase {v : String → Bool} {s : List String} {u : String}
    (h : allAllowed v s) : allAllowed v (s.erase u) :=
  fun x hx => h x (List.mem_of_mem_erase hx)

theorem allAllowed_take {v : String → Bool} {s : List String} {n : Nat}
    (h : allAllowed v s) : allAllowed v (s.take n) :=
  fun x hx => h x (List.mem_of_mem_take hx)

theorem allAllowed_filter {v : String → Bool} {s : List String} {p : String → Bool}
    (h : allAllowed v s) : allAllowed v (s.filter p) :=
  fun x hx => h x (List.mem_of_mem_filter hx)

theorem allAllowed_foldl_insert {v : String → Bool} {s : List String} {l : List String}
    (h0 : allAllowed v s) (hl : allAllowed v l) :
    allAllowed v (l.foldl insertIfAbsent s) :=
  foldl_inv l s h0 (fun _ b hb ha => allAllowed_insertIfAbsent ha (hl b hb))

theorem allAllowed_dedupList {v : String → Bool} {l : List String}
    (hl : allAllowed v l) : allAllowed v (dedupList l) :=
  allAllowed_foldl_insert allAllowed_nil hl

theorem allAllowed_append {v : String → Bool} {l₁ l₂ : List String}
    (h₁ : allAllowed v l₁) (h₂ : allAllowed v l₂) : allAllowed v (l₁ ++ l₂) := by
  intro u hu
  rcases List.mem_append.1 hu with h | h
  · exact h₁ u h
  · exact h₂ u h

theorem addCandidateStep_allowed {v : String → Bool}
    {acc : List String × List String} {part : String}
    (h1 : allAllowed v acc.1) (h2 : allAllowed v acc.2) :
    allAllowed v (addCandidateStep v acc part).1 ∧
    allAllowed v (addCandidateStep v acc part).2 := by
  simp only [addCandidateStep]
  split
  · exact ⟨h1, h2⟩
  · split
    · exact ⟨h1, h2⟩
    next parsed _ =>
      split
      next hv =>
        split
        · exact ⟨h1, h2⟩
        · constructor
          · intro x hx
            rcases List.mem_append.1 hx with ha | hb
            · exact h1 x ha
            · rcases List.mem_singleton.1 hb with rfl
              exact hv
          · intro x hx
            rcases List.mem_append.1 hx with ha | hb
            · exact h2 x ha
            · rcases List.mem_singleton.1 hb with rfl
              exact hv
      · exact ⟨h1, h2⟩

/-- The invariant at the heart of C1: `addCandidateUrl` only ever grows the set
with URLs the validator accepted. -/
theorem addCandidateUrl_fst_allowed {v : String → Bool} {s : List String}
    {raw : Option String} (h : allAllowed v s) :
    allAllowed v (addCandidateUrl v s raw).1 := by
  simp only [addCandidateUrl]
  split
  · exact h
  · refine (foldl_inv
      (P := fun acc : List String × List String =>
        allAllowed v acc.1 ∧ allAllowed v acc.2)
      _ (s, []) ⟨h, allAllowed_nil⟩ ?_).1
    intro acc part _ hacc
    exact addCandidateStep_allowed hacc.1 hacc.2

theorem addCandidateUrl_snd_allowed {v : String → Bool} {s : List String}
    {raw : Option String} (h : allAllowed v s) :
    allAllowed v (addCandidateUrl v s raw).2 := by
  simp only [addCandidateUrl]
  split
  · exact allAllowed_nil
  · refine (foldl_inv
      (P := fun acc : List String × List String =>
        allAllowed v acc.1 ∧ allAllowed v acc.2)
      _ (s, []) ⟨h, allAllowed_nil⟩ ?_).2
    intro acc part _ hacc
    exact addCandidateStep_allowed hacc.1 hacc.2

/-! ## Per-extractor validator invariants -/

theorem extractImageUrls_allowed (v : String → Bool) (doc : Doc) :
    allAllowed v (extractImageUrls v doc) := by
  unfold extractImageUrls
  refine allAllowed_take ?_
  refine foldl_inv (P := allAllowed v) _ _ allAllowed_nil ?_
  intro s₁ selector _ h₁
  refine foldl_inv (P := allAllowed v) _ _ h₁ ?_
  intro s₂ element _ h₂
  refine foldl_inv (P := allAllowed v) _ _ h₂ ?_
  intro s₃ candidate _ h₃
  dsimp only
  refine foldl_inv (P := allAllowed v) _ _ (addCandidateUrl_fst_allowed h₃) ?_
  intro s₄ addedUrl _ h₄
  split
  · exact allAllowed_erase h₄
  · exact h₄

theorem extractScriptMediaUrls_allowed (rx : RegexOracle) (v : String → Bool)
    (doc : Doc) (kind : String) :
    allAllowed v (extractScriptMediaUrls rx v doc kind) := by
  unfold extractScriptMediaUrls
  refine foldl_inv (P := allAllowed v) _ _ allAllowed_nil ?_
  intro s₁ element _ h₁
  dsimp only
  split
  · exact h₁
  next scriptBody _ =>
    split
    · exact h₁
    · refine foldl_inv (P := allAllowed v) _ _ h₁ ?_
      intro s₂ mediaKind _ h₂
      refine foldl_inv (P := allAllowed v) _ _ h₂ ?_
      intro s₃ m _ h₃
      exact addCandidateUrl_fst_allowed h₃

theorem extractVideoUrlsDom_allowed (rx : RegexOracle) (v : String → Bool)
    (doc : Doc) : allAllowed v (extractVideoUrlsDom rx v doc) := by
  unfold extractVideoUrlsDom
  refine foldl_inv (P := allAllowed v) _ _ allAllowed_nil ?_
  intro s₁ selector _ h₁
  refine foldl_inv (P := allAllowed v) _ _ h₁ ?_
  intro s₂ element _ h₂
  dsimp only
  refine foldl_inv (P := allAllowed v) _ _ ?_ ?_
  · refine foldl_inv (P := allAllowed v) _ _ h₂ ?_
    intro s₃ attrName _ h₃
    dsimp only
    refine foldl_inv (P := allAllowed v) _ _ (addCandidateUrl_fst_allowed h₃) ?_
    intro s₄ m _ h₄
    exact addCandidateUrl_fst_allowed h₄
  · intro s₄ m _ h₄
    exact addCandidateUrl_fst_allowed h₄

theorem extractVideoUrls_allowed (rx : RegexOracle) (v : String → Bool) (doc : Doc) :
    allAllowed v (extractVideoUrls rx v doc) := by
  simp only [extractVideoUrls]
  refine allAllowed_take (allAllowed_filter ?_)
  have hscript : allAllowed v ((extractScriptMediaUrls rx v doc "video").foldl
      insertIfAbsent (extractVideoUrlsDom rx v doc)) :=
    allAllowed_foldl_insert (extractVideoUrlsDom_allowed rx v doc)
      (extractScriptMediaUrls_allowed rx v doc "video")
  split
  · exact addCandidateUrl_fst_allowed (addCandidateUrl_fst_allowed hscript)
  · exact hscript

theorem extractDocumentUrlsDom_allowed (v : String → Bool) (doc : Doc) :
    allAllowed v (extractDocumentUrlsDom v doc) := by
  unfold extractDocumentUrlsDom
  refine foldl_inv (P := allAllowed v) _ _ allAllowed_nil ?_
  intro s₁ selector _ h₁
  refine foldl_inv (P := allAllowed v) _ _ h₁ ?_
  intro s₂ element _ h₂
  exact addCandidateUrl_fst_allowed
    (addCandidateUrl_fst_allowed (addCandidateUrl_fst_allowed h₂))

theorem extractDocumentUrls_allowed (rx : RegexOracle) (v : String → Bool)
    (doc : Doc) : allAllowed v (extractDocumentUrls rx v doc) := by
  simp only [extractDocumentUrls]
  refine allAllowed_take (allAllowed_filter ?_)
  split
  · exact allAllowed_foldl_insert (extractDocumentUrlsDom_allowed v doc)
      (extractScriptMediaUrls_allowed rx v doc "document")
  · exact extractDocumentUrlsDom_allowed v doc

theorem extractOgImageFallback_allowed (v : String → Bool) (doc : Doc) :
    allAllowed v (extractOgImageFallback v doc) := by
  unfold extractOgImageFallback
  exact allAllowed_take (allAllowed_filter
    (addCandidateUrl_fst_allowed (addCandidateUrl_fst_allowed allAllowed_nil)))

theorem extractEmbedFrameUrls_allowed (v : String → Bool) (doc : Doc) :
    allAllowed v (extractEmbedFrameUrls v doc) := by
  unfold extractEmbedFrameUrls
  refine allAllowed_take (allAllowed_filter ?_)
  refine foldl_inv (P := allAllowed v) _ _ allAllowed_nil ?_
  intro s₁ selector _ h₁
  refine foldl_inv (P := allAllowed v) _ _ h₁ ?_
  intro s₂ element _ h₂
  refine foldl_inv (P := allAllowed v) _ _ h₂ ?_
  intro s₃ attr _ h₃
  exact addCandidateUrl_fst_allowed h₃

theorem embedDomCandidates_allowed (rx : RegexOracle) (v : String → Bool)
    (doc : Doc) : allAllowed v (embedDomCandidates rx v doc) := by
  unfold embedDomCandidates
  have hcand : allAllowed v ((doc.select (strIntercalate ", " EMBED_DOM_SELECTORS)).foldl
      (fun s element =>
        EMBED_DOM_ATTRIBUTES.foldl (fun s attr =>
          match element.attr attr with
          | none => s
          | some value =>
            if value = "" then s
            else
              let s := (addCandidateUrl v s (some value)).1
              let s := (extractStyleUrls rx (some value)).foldl (fun s styleUrl =>
                (addCandidateUrl v s (some styleUrl)).1) s
              (["image", "video", "document"]).foldl (fun s kind =>
                (extractEmbeddedMediaUrls rx (some value) kind).foldl (fun s u =>
                  (addCandidateUrl v s (some u)).1) s) s) s) []) := by
    refine foldl_inv (P := allAllowed v) _ _ allAllowed_nil ?_
    intro s₁ element _ h₁
    refine foldl_inv (P := allAllowed v) _ _ h₁ ?_
    intro s₂ attr _ h₂
    dsimp only
    split
    · exact h₂
    · split
      · exact h₂
      · refine foldl_inv (P := allAllowed v) _ _ ?_ ?_
        · refine foldl_inv (P := allAllowed v) _ _ (addCandidateUrl_fst_allowed h₂) ?_
          intro s₃ styleUrl _ h₃
          exact addCandidateUrl_fst_allowed h₃
        · intro s₄ kind _ h₄
          refine foldl_inv (P := allAllowed v) _ _ h₄ ?_
          intro s₅ u _ h₅
          exact addCandidateUrl_fst_allowed h₅
  refine foldl_inv (P := allAllowed v) _ _ hcand ?_
  intro s₁ kind _ h₁
  exact allAllowed_foldl_insert h₁ (extractScriptMediaUrls_allowed rx v doc kind)

theorem classifyStep_allowed {v : String → Bool} {acc : MediaSets} {url : String}
    (h₁ : allAllowed v acc.imageUrls) (h₂ : allAllowed v acc.videoUrls)
    (h₃ : allAllowed v acc.documentUrls) (hx : v url = true) :
    allAllowed v (classifyStep acc url).imageUrls ∧
    allAllowed v (classifyStep acc url).videoUrls ∧
    allAllowed v (classifyStep acc url).documentUrls := by
  simp only [classifyStep]
  split
  · exact ⟨allAllowed_insertIfAbsent h₁ hx, h₂, h₃⟩
  · split
    · exact ⟨h₁, allAllowed_insertIfAbsent h₂ hx, h₃⟩
    · split
      · exact ⟨h₁, h₂, allAllowed_insertIfAbsent h₃ hx⟩
      · exact ⟨h₁, h₂, h₃⟩

theorem extractMediaFromEmbedDom_allowed (rx : RegexOracle) (v : String → Bool)
    (doc : Doc) :
    allAllowed v (extractMediaFromEmbedDom rx v doc).imageUrls ∧
    allAllowed v (extractMediaFromEmbedDom rx v doc).videoUrls ∧
    allAllowed v (extractMediaFromEmbedDom rx v doc).documentUrls := by
  simp only [extractMediaFromEmbedDom]
  have hall := embedDomCandidates_allowed rx v doc
  have hsets := foldl_inv
    (P := fun acc : MediaSets => allAllowed v acc.imageUrls ∧
      allAllowed v acc.videoUrls ∧ allAllowed v acc.documentUrls)
    (embedDomCandidates rx v doc) emptyMediaSets
    ⟨allAllowed_nil, allAllowed_nil, allAllowed_nil⟩
    (fun acc url hu hacc =>
      classifyStep_allowed hacc.1 hacc.2.1 hacc.2.2 (hall url hu))
  exact ⟨allAllowed_take hsets.1, allAllowed_take hsets.2.1,
    allAllowed_take hsets.2.2⟩

theorem embedFrameContribution_allowed (rx : RegexOracle) (v : String → Bool)
    (embedNet : HtmlNet) (frameUrl : String) :
    allAllowed v (embedFrameContribution rx v embedNet frameUrl).imageUrls ∧
    allAllowed v (embedFrameContribution rx v embedNet frameUrl).videoUrls ∧
    allAllowed v (embedFrameContribution rx v embedNet frameUrl).documentUrls := by
  unfold embedFrameContribution
  split
  · exact ⟨allAllowed_nil, allAllowed_nil, allAllowed_nil⟩
  · split
    · exact ⟨allAllowed_nil, allAllowed_nil, allAllowed_nil⟩
    · exact extractMediaFromEmbedDom_allowed rx v _

theorem extractMediaFromEmbeds_allowed (rx : RegexOracle) (v : String → Bool)
    (embedNet : HtmlNet) (doc : Doc) :
    allAllowed v (extractMediaFromEmbeds rx v embedNet doc).imageUrls ∧
    allAllowed v (extractMediaFromEmbeds rx v embedNet doc).videoUrls ∧
    allAllowed v (extractMediaFromEmbeds rx v embedNet doc).documentUrls := by
  simp only [extractMediaFromEmbeds]
  split
  · exact ⟨allAllowed_nil, allAllowed_nil, allAllowed_nil⟩
  · refine ⟨allAllowed_take ?_, allAllowed_take ?_, allAllowed_take ?_⟩
    · refine foldl_inv (P := allAllowed v) _ _ allAllowed_nil ?_
      intro s r hr hs
      rcases List.mem_map.1 hr with ⟨frameUrl, _, rfl⟩
      exact allAllowed_foldl_insert hs
        (embedFrameContribution_allowed rx v embedNet frameUrl).1
    · refine foldl_inv (P := allAllowed v) _ _ allAllowed_nil ?_
      intro s r hr hs
      rcases List.mem_map.1 hr with ⟨frameUrl, _, rfl⟩
      exact allAllowed_foldl_insert hs
        (embedFrameContribution_allowed rx v embedNet frameUrl).2.1
    · refine foldl_inv (P := allAllowed v) _ _ allAllowed_nil ?_
      intro s r hr hs
      rcases List.mem_map.1 hr with ⟨frameUrl, _, rfl⟩
      exact allAllowed_foldl_insert hs
        (embedFrameContribution_allowed rx v embedNet frameUrl).2.2

theorem assembleResult_allowed (rx : RegexOracle) (v : String → Bool)
    (embedNet : HtmlNet) (doc : Doc) :
    allAllowed v (assembleResult rx v embedNet doc).imageUrls ∧
    allAllowed v (assembleResult rx v embedNet doc).videoUrls ∧
    allAllowed v (assembleResult rx v embedNet doc).documentUrls := by
  simp only [assembleResult]
  have hemb := extractMediaFromEmbeds_allowed rx v embedNet doc
  have himg : allAllowed v (dedupList (extractImageUrls v doc ++
      (extractMediaFromEmbeds rx v embedNet doc).imageUrls)) :=
    allAllowed_dedupList (allAllowed_append (extractImageUrls_allowed v doc) hemb.1)
  refine ⟨allAllowed_take ?_, allAllowed_take ?_, allAllowed_take ?_⟩
  · split
    · exact allAllowed_foldl_insert himg (extractOgImageFallback_allowed v doc)
    · exact himg
  · exact allAllowed_dedupList
      (allAllowed_append (extractVideoUrls_allowed rx v doc) hemb.2.1)
  · exact allAllowed_dedupList
      (allAllowed_append (extractDocumentUrls_allowed rx v doc) hemb.2.2)

/-- Inversion for a successful `scrapeOnce`. -/
theorem scrapeOnce_ok_inv {rx : RegexOracle} {v : String → Bool} {embedNet : HtmlNet}
    {page : Except Unit HtmlResponse} {r : ExtractionResult}
    (h : scrapeOnce rx v embedNet page = .ok r) :
    ∃ response, page = .ok response ∧ r = assembleResult rx v embedNet response.doc := by
  match page with
  | .error e => simp [scrapeOnce] at h
  | .ok response =>
    refine ⟨response, rfl, ?_⟩
    simp only [scrapeOnce] at h
    split at h
    · simp at h
    · split at h
      · simp at h
      · split at h
        · simp at h
        · split at h
          · simp at h
          · injection h with h
            exact h.symm

theorem dedupMediaStep_allowed {v : String → Bool}
    {acc : List MediaRequest × List String} {entry : RawMediaEntry}
    (hacc : ∀ e ∈ acc.1, v e.url = true) :
    ∀ e ∈ (dedupMediaStep v acc entry).1, v e.url = true := by
  simp only [dedupMediaStep]
  split
  · exact hacc
  next hcond =>
    intro e he
    rcases List.mem_append.1 he with h1 | h2
    · exact hacc e h1
    · rcases List.mem_singleton.1 h2 with rfl
      rcases Bool.not_eq_true _ ▸ hcond with _
      simp only [Bool.or_eq_true, not_or, Bool.not_eq_true] at hcond
      have := hcond.2
      simpa using this

theorem dedupMediaEntries_allowed (v : String → Bool)
    (mediaEntries : Option (List RawMediaEntry)) :
    ∀ e ∈ dedupMediaEntries v mediaEntries, v e.url = true := by
  unfold dedupMediaEntries
  refine (foldl_inv
    (P := fun acc : List MediaRequest × List String => ∀ e ∈ acc.1, v e.url = true)
    _ _ (fun e he => absurd he (by simp)) ?_)
  intro acc entry _ hacc
  exact dedupMediaStep_allowed hacc

/-- C1: every URL in the imageUrls / videoUrls / documentUrls lists of a
successful scrape satisfies the allowed-media-URL predicate, and every URL
admitted for download by `downloadLinkedInMedia` satisfies the very same
predicate, so nothing can be downloaded that would not also have survived
extraction filtering.  The predicate `isAllowedLinkedInMediaUrl` lives in
`lib/utils.js` (outside src/) and is modelled as an arbitrary pure predicate
passed identically to both layers. -/
theorem extraction_and_download_same_predicate
    (isAllowedLinkedInMediaUrl : String → Bool) (rx : RegexOracle)
    (embedNet : HtmlNet) (page : Except Unit HtmlResponse) (r : ExtractionResult)
    (mediaEntries : Option (List RawMediaEntry))
    (h : scrapeOnce rx isAllowedLinkedInMediaUrl embedNet page = .ok r) :
    (∀ u ∈ r.imageUrls, isAllowedLinkedInMediaUrl u = true) ∧
    (∀ u ∈ r.videoUrls, isAllowedLinkedInMediaUrl u = true) ∧
    (∀ u ∈ r.documentUrls, isAllowedLinkedInMediaUrl u = true) ∧
    (∀ e ∈ attemptedEntries isAllowedLinkedInMediaUrl mediaEntries,
      isAllowedLinkedInMediaUrl e.url = true) := by
  rcases scrapeOnce_ok_inv h with ⟨response, _, rfl⟩
  have ha := assembleResult_allowed rx isAllowedLinkedInMediaUrl embedNet response.doc
  refine ⟨ha.1, ha.2.1, ha.2.2, ?_⟩
  intro e he
  exact dedupMediaEntries_allowed isAllowedLinkedInMediaUrl mediaEntries e
    (List.mem_of_mem_take he)

/-! ## Concrete fixtures for the witnesses -/

instance {ε α : Type _} [DecidableEq ε] [DecidableEq α] : DecidableEq (Except ε α) :=
  fun a b =>
    match a, b with
    | .error x, .error y =>
      decidable_of_iff (x = y)
        ⟨fun h => by rw [h], fun h => by injection h⟩
    | .ok x, .ok y =>
      decidable_of_iff (x = y)
        ⟨fun h => by rw [h], fun h => by injection h⟩
    | .error _, .ok _ => isFalse (fun h => by injection h)
    | .ok _, .error _ => isFalse (fun h => by injection h)

def fxValidator : String → Bool := fun s => strStartsWith s "https://media.licdn.com/"

def fxRx : RegexOracle := ⟨fun _ _ => [], fun _ _ => [], fun _ => []⟩

def fxTextElement : Element :=
  { attr := fun _ => none, text := "hello", innerHtml := none,
    parentClassAttr := none, closestClassAttr := none,
    inPostMediaContainer := false }

def fxUrl : String := "https://media.licdn.com/dms/image/abc"

def fxVideoUrl : String := "https://media.licdn.com/dms/video/v1"

def fxImageElement : Element :=
  { attr := fun a => if a = "src" then some fxUrl else none,
    text := "", innerHtml := none, parentClassAttr := none,
    closestClassAttr := none, inPostMediaContainer := true }

def fxDoc : Doc :=
  { select := fun s =>
      if s = ".attributed-text-segment-list__content" then [fxTextElement]
      else if s = ".update-components-image__container img" then [fxImageElement]
      else [] }

def fxEmbedNet : HtmlNet := fun _ => .error ()

def fxResult : ExtractionResult := ⟨"hello", [fxUrl], [], []⟩

def fxEntries : Option (List RawMediaEntry) :=
  some [⟨some fxUrl, some "image"⟩, ⟨some fxUrl, some "image"⟩,
        ⟨some fxVideoUrl, some "video"⟩]

def fxNet : MediaNet := fun u =>
  if u = fxUrl then .ok ⟨200, some "image/jpeg", [7, 8]⟩ else .error ()

/-- Witness for C1: a concrete successful scrape whose single extracted image URL
passes the predicate, via the theorem. -/
theorem extraction_and_download_same_predicate_witness :
    scrapeOnce fxRx fxValidator fxEmbedNet (.ok ⟨200, fxDoc⟩) = .ok fxResult ∧
    fxValidator fxUrl = true := by
  refine ⟨by decide, ?_⟩
  exact (extraction_and_download_same_predicate fxValidator fxRx fxEmbedNet
    (.ok ⟨200, fxDoc⟩) fxResult fxEntries (by decide)).1 fxUrl (by decide)

/-! ## Concurrency model: `Promise.all` is completion-order independent -/

theorem runTasks_foldl_getElem? {α : Type _} (tasks : List (Option α)) :
    ∀ (sched : List Nat) (out : List (Option α)) (j : Nat),
      (sched.foldl (fun out i => out.set i (tasks.getD i none)) out)[j]? =
        if j ∈ sched ∧ j < out.length then some (tasks.getD j none) else out[j]? := by
  intro sched
  induction sched with
  | nil =>
    intro out j
    simp
  | cons i is ih =>
    intro out j
    simp only [List.foldl_cons]
    rw [ih, List.length_set]
    by_cases h1 : j ∈ is ∧ j < out.length
    · rw [if_pos h1, if_pos ⟨List.mem_cons_of_mem i h1.1, h1.2⟩]
    · rw [if_neg h1, List.getElem?_set]
      by_cases h2 : i = j
      · subst h2
        by_cases h3 : i < out.length
        · rw [if_pos rfl, if_pos h3, if_pos ⟨List.mem_cons_self i is, h3⟩]
        · rw [if_pos rfl, if_neg h3, if_neg (fun hc => h3 hc.2)]
          exact (List.getElem?_eq_none (Nat.le_of_not_lt h3)).symm
      · rw [if_neg h2]
        rw [if_neg (fun hc => ?_)]
        rcases List.mem_cons.1 hc.1 with hji | hjis
        · exact h2 hji.symm
        · exact h1 ⟨hjis, hc.2⟩

theorem runTasks_perm {α : Type _} (tasks : List (Option α)) (sched : List Nat)
    (hperm : sched.Perm (List.range tasks.length)) :
    runTasks tasks sched = tasks := by
  apply List.ext_getElem?
  intro j
  unfold runTasks
  rw [runTasks_foldl_getElem?, List.length_replicate]
  by_cases hj : j < tasks.length
  · have hm : j ∈ sched := hperm.mem_iff.2 (List.mem_range.2 hj)
    rw [if_pos ⟨hm, hj⟩, List.getD_eq_getElem?_getD, List.getElem?_eq_getElem hj]
    rfl
  · have hm : j ∉ sched := fun h => hj (List.mem_range.1 (hperm.mem_iff.1 h))
    rw [if_neg (fun hc => hm hc.1), List.getElem?_replicate, if_neg hj]
    exact (List.getElem?_eq_none (Nat.le_of_not_lt hj)).symm

/-- For every completion schedule that is a permutation of the task indices,
`downloadLinkedInMedia` equals the index-ordered assembly over the
de-duplicated, capped request list. -/
theorem downloadLinkedInMedia_eq (validator : String → Bool) (net : MediaNet)
    (sched : List Nat) (mediaEntries : Option (List RawMediaEntry))
    (hperm : sched.Perm (List.range (attemptedEntries validator mediaEntries).length)) :
    downloadLinkedInMedia validator net sched mediaEntries =
      (attemptedEntries validator mediaEntries).enum.filterMap
        (fun p => downloadOne net p.1 p.2) := by
  simp only [downloadLinkedInMedia]
  split
  next hlen =>
    have hnil : dedupMediaEntries validator mediaEntries = [] :=
      List.length_eq_zero.1 hlen
    simp [attemptedEntries, hnil]
  next hlen =>
    have hlen3 : (((dedupMediaEntries validator mediaEntries).take
        MAX_DOWNLOAD_COUNT).enum.map (fun p => downloadOne net p.1 p.2)).length =
        (attemptedEntries validator mediaEntries).length := by
      simp [attemptedEntries, List.enum_length]
    rw [runTasks_perm _ _ (hlen3 ▸ hperm), List.filterMap_map]
    rfl

theorem downloadOne_some_fields {net : MediaNet} {i : Nat} {entry : MediaRequest}
    {rec : DownloadedMedia} (h : downloadOne net i entry = some rec) :
    rec.url = entry.url ∧
    rec.filename = mediaFilename i rec.mediaType rec.mimeType entry.url := by
  simp only [downloadOne] at h
  split at h
  · simp at h
  · split at h
    · simp at h
    · split at h
      · simp at h
      · split at h
        · simp at h
        · injection h with h
          subst h
          exact ⟨rfl, rfl⟩

/-- C2: the download records are returned in the order of the de-duplicated,
order-preserving request list (failed entries simply absent), and each record's
filename is `linkedin-<kind>-<i>.<ext>` where `i` is the 1-based position of its
entry in that list — for every completion schedule of the concurrent pool, so
completion order cannot affect filenames or output order. -/
theorem download_order_and_filenames (validator : String → Bool) (net : MediaNet)
    (sched : List Nat) (mediaEntries : Option (List RawMediaEntry))
    (hperm : sched.Perm (List.range (attemptedEntries validator mediaEntries).length)) :
    downloadLinkedInMedia validator net sched mediaEntries =
      (attemptedEntries validator mediaEntries).enum.filterMap
        (fun p => downloadOne net p.1 p.2) ∧
    ∀ rec ∈ downloadLinkedInMedia validator net sched mediaEntries,
      ∃ i entry, (attemptedEntries validator mediaEntries)[i]? = some entry ∧
        downloadOne net i entry = some rec ∧
        rec.filename = "linkedin-" ++ rec.mediaType ++ "-" ++ toString (i + 1) ++
          "." ++ mediaExtension rec.mimeType entry.url := by
  refine ⟨downloadLinkedInMedia_eq validator net sched mediaEntries hperm, ?_⟩
  intro rec hrec
  rw [downloadLinkedInMedia_eq validator net sched mediaEntries hperm] at hrec
  rcases List.mem_filterMap.1 hrec with ⟨p, hp, hf⟩
  have hp2 := List.mem_enum_iff_getElem?.1 hp
  refine ⟨p.1, p.2, hp2, hf, ?_⟩
  rw [(downloadOne_some_fields hf).2]
  rfl

def fxEntriesB : Option (List RawMediaEntry) :=
  some [⟨some fxVideoUrl, some "video"⟩, ⟨some fxUrl, some "image"⟩]

/-- Witness for C2: the failing entry is first in the request list and the pool
completes the second task first (schedule `[1, 0]`), yet assembly is
index-ordered. -/
theorem download_order_and_filenames_witness :
    ([1, 0] : List Nat).Perm
      (List.range (attemptedEntries fxValidator fxEntriesB).length) ∧
    downloadLinkedInMedia fxValidator fxNet [1, 0] fxEntriesB =
      (attemptedEntries fxValidator fxEntriesB).enum.filterMap
        (fun p => downloadOne fxNet p.1 p.2) := by
  refine ⟨by decide, ?_⟩
  exact (download_order_and_filenames fxValidator fxNet [1, 0] fxEntriesB
    (by decide)).1

/-! ## Failure isolation for downloads -/

theorem filterMap_eq_filterMap_filter {α β : Type _} (f : α → Option β)
    (p : α → Bool) (l : List α) (h : ∀ x ∈ l, p x = false → f x = none) :
    l.filterMap f = (l.filter p).filterMap f := by
  induction l with
  | nil => rfl
  | cons x xs ih =>
    have hxs : ∀ y ∈ xs, p y = false → f y = none :=
      fun y hy => h y (List.mem_cons_of_mem x hy)
    by_cases hx : p x = true
    · rw [List.filterMap_cons, List.filter_cons, if_pos hx, List.filterMap_cons,
        ih hxs]
    · have hfx : f x = none := h x (List.mem_cons_self x xs) (Bool.not_eq_true _ ▸ hx)
      rw [List.filterMap_cons, hfx, List.filter_cons,
        if_neg hx, ih hxs]

theorem length_filterMap_eq_countP {α β : Type _} (f : α → Option β) (l : List α) :
    (l.filterMap f).length = l.countP (fun a => (f a).isSome) := by
  induction l with
  | nil => rfl
  | cons x xs ih =>
    rw [List.filterMap_cons, List.countP_cons]
    cases hfx : f x with
    | none => simp [hfx, ih]
    | some b => simp [hfx, ih]

/-- C3: `downloadLinkedInMedia` is a total function into plain record lists (it
cannot throw); when the task for one entry fails, only that entry disappears —
the result equals the index-ordered assembly over the remaining entries, each
processed independently — and dropped entries leave no placeholder: the
result's length is exactly the number of successful entries. -/
theorem download_failures_isolated (validator : String → Bool) (net : MediaNet)
    (sched : List Nat) (mediaEntries : Option (List RawMediaEntry)) (i : Nat)
    (entry : MediaRequest)
    (hperm : sched.Perm (List.range (attemptedEntries validator mediaEntries).length))
    (hentry : (attemptedEntries validator mediaEntries)[i]? = some entry)
    (hfail : downloadOne net i entry = none) :
    downloadLinkedInMedia validator net sched mediaEntries =
      ((attemptedEntries validator mediaEntries).enum.filter
        (fun p => p.1 != i)).filterMap (fun p => downloadOne net p.1 p.2) ∧
    (downloadLinkedInMedia validator net sched mediaEntries).length =
      (attemptedEntries validator mediaEntries).enum.countP
        (fun p => (downloadOne net p.1 p.2).isSome) := by
  constructor
  · rw [downloadLinkedInMedia_eq validator net sched mediaEntries hperm]
    refine filterMap_eq_filterMap_filter _ _ _ ?_
    intro p hp hnp
    have hpi : p.1 = i := by simpa using hnp
    have hp2 := List.mem_enum_iff_getElem?.1 hp
    rw [hpi, hentry] at hp2
    injection hp2 with hp2
    rw [hpi, ← hp2]
    exact hfail
  · rw [downloadLinkedInMedia_eq validator net sched mediaEntries hperm]
    exact length_filterMap_eq_countP _ _

/-- Witness for C3: the first request's fetch fails (transport error) and is
dropped alone; the sibling download still succeeds. -/
theorem download_failures_isolated_witness :
    ([1, 0] : List Nat).Perm
      (List.range (attemptedEntries fxValidator fxEntriesB).length) ∧
    (attemptedEntries fxValidator fxEntriesB)[0]? =
      some ⟨fxVideoUrl, "video"⟩ ∧
    downloadOne fxNet 0 ⟨fxVideoUrl, "video"⟩ = none ∧
    downloadLinkedInMedia fxValidator fxNet [1, 0] fxEntriesB =
      ((attemptedEntries fxValidator fxEntriesB).enum.filter
        (fun p => p.1 != 0)).filterMap (fun p => downloadOne fxNet p.1 p.2) := by
  refine ⟨by decide, by decide, by decide, ?_⟩
  exact (download_failures_isolated fxValidator fxNet [1, 0] fxEntriesB 0
    ⟨fxVideoUrl, "video"⟩ (by decide) (by decide) (by decide)).1

/-! ## Media-kind classification (C4) -/

theorem listStartsWith_head {p : Char} {ps l : List Char}
    (h : listStartsWith (p :: ps) l = true) : ∃ cs, l = p :: cs := by
  cases l with
  | nil => simp [listStartsWith] at h
  | cons c cs =>
    simp only [listStartsWith, Bool.and_eq_true, beq_iff_eq] at h
    exact ⟨cs, by rw [h.1]⟩

/-- Two prefixes with different first characters cannot both match. -/
theorem strStartsWith_excl {s p q : String} {c d : Char} {cp cq : List Char}
    (hp : p.data = c :: cp) (hq : q.data = d :: cq) (hne : d ≠ c)
    (h1 : strStartsWith s p = true) : strStartsWith s q = false := by
  unfold strStartsWith at h1 ⊢
  rw [hp] at h1
  rw [hq]
  rcases listStartsWith_head h1 with ⟨cs, hcs⟩
  rw [hcs]
  simp [listStartsWith, hne]

/-- The spec's path shapes for the download classifier (section 4.5):
`document-path shape`, `video-path shape / known video file extension`,
`image-path shape`. -/
def isDocumentPathShape (pathname : String) : Bool :=
  strContains pathname "/dms/document/" || strEndsWith pathname ".pdf"

def isVideoPathShape (pathname : String) : Bool :=
  strContains pathname "/dms/video/" || strContains pathname "/dms/videoplayback/"

def hasKnownVideoExtension (pathname : String) : Bool :=
  strEndsWith pathname ".mp4" || strEndsWith pathname ".mov" ||
    strEndsWith pathname ".webm" || strEndsWith pathname ".mpeg"

def isImagePathShape (pathname : String) : Bool :=
  strContains pathname "/dms/image/"

/-- The spec's download classification algorithm, written from its words
(section 4.5) for comparison with `inferMediaType`: reject an HTML MIME;
accept image/video MIME families directly; `application/pdf` or a
document-path shape is a document; a video-path shape or known video file
extension is a video; an image-path shape is an image; otherwise an empty or
generic-binary MIME yields the requested kind; otherwise unsupported. -/
def specClassifyMedia (requestedType mimeType sourceUrl : String) : Option String :=
  let mime := strToLower mimeType
  let pathname := pathnameOf sourceUrl
  if strStartsWith mime "text/html" then none
  else if strStartsWith mime "image/" then some "image"
  else if strStartsWith mime "video/" then some "video"
  else if mime = "application/pdf" || isDocumentPathShape pathname then
    some "document"
  else if isVideoPathShape pathname || hasKnownVideoExtension pathname then
    some "video"
  else if isImagePathShape pathname then some "image"
  else if mime = "" || mime = "application/octet-stream" then some requestedType
  else none

/-- C4: for every request whose requested type lies in the closed media-kind
set, `inferMediaType` implements exactly the spec's ordered classification, and
whenever it yields a kind, that kind is consistent with the MIME type (an HTML
MIME never survives, an image/video MIME family forces that kind, and an
`application/pdf` MIME forces document). -/
theorem inferMediaType_follows_spec (requestedType mimeType sourceUrl : String)
    (hr : requestedType = "image" ∨ requestedType = "video" ∨
      requestedType = "document") :
    inferMediaType requestedType mimeType sourceUrl =
      specClassifyMedia requestedType mimeType sourceUrl ∧
    ∀ t, inferMediaType requestedType mimeType sourceUrl = some t →
      strStartsWith (strToLower mimeType) "text/html" = false ∧
      (strStartsWith (strToLower mimeType) "image/" = true → t = "image") ∧
      (strStartsWith (strToLower mimeType) "video/" = true → t = "video") ∧
      (strToLower mimeType = "application/pdf" → t = "document") := by
  have hreq : (requestedType = "image" || requestedType = "video" ||
      requestedType = "document") = true := by
    rcases hr with h | h | h <;> simp [h]
  constructor
  · simp only [inferMediaType, specClassifyMedia, isDocumentPathShape,
      isVideoPathShape, hasKnownVideoExtension, isImagePathShape]
    split_ifs <;> simp_all
  · intro t h
    simp only [inferMediaType] at h
    split_ifs at h with c1 c2 c3 c4 c5 c6 c7 c8 <;>
      injection h with h <;> subst h
    · refine ⟨Bool.not_eq_true _ ▸ c1, fun _ => rfl, fun hv => ?_, fun hp => ?_⟩
      · exact absurd hv (by rw [strStartsWith_excl (s := strToLower mimeType)
          (p := "image/") (q := "video/") rfl rfl (by decide) c2]; simp)
      · rw [hp] at c2
        exact absurd c2 (by decide)
    · refine ⟨Bool.not_eq_true _ ▸ c1, fun hi => absurd hi (by simp [c2]),
        fun _ => rfl, fun hp => ?_⟩
      rw [hp] at c3
      exact absurd c3 (by decide)
    · exact ⟨Bool.not_eq_true _ ▸ c1, fun hi => absurd hi (by simp [c2]),
        fun hv => absurd hv (by simp [c3]), fun _ => rfl⟩
    · exact ⟨Bool.not_eq_true _ ▸ c1, fun hi => absurd hi (by simp [c2]),
        fun hv => absurd hv (by simp [c3]), fun hp => absurd hp (by simp [c4])⟩
    · exact ⟨Bool.not_eq_true _ ▸ c1, fun hi => absurd hi (by simp [c2]),
        fun hv => absurd hv (by simp [c3]), fun hp => absurd hp (by simp [c4])⟩
    · exact ⟨Bool.not_eq_true _ ▸ c1, fun hi => absurd hi (by simp [c2]),
        fun hv => absurd hv (by simp [c3]), fun hp => absurd hp (by simp [c4])⟩
    · exact ⟨Bool.not_eq_true _ ▸ c1, fun hi => absurd hi (by simp [c2]),
        fun hv => absurd hv (by simp [c3]), fun hp => absurd hp (by simp [c4])⟩

/-- Witness for C4 at a concrete image request with a video MIME response. -/
theorem inferMediaType_follows_spec_witness :
    inferMediaType "image" "video/mp4" fxUrl =
      specClassifyMedia "image" "video/mp4" fxUrl ∧
    inferMediaType "image" "video/mp4" fxUrl = some "video" := by
  refine ⟨?_, by decide⟩
  exact (inferMediaType_follows_spec "image" "video/mp4" fxUrl (Or.inl rfl)).1

/-! ## Text extraction (C5) -/

/-- The claim's reading of `extractPostText`, written from the claim's words for
comparison: the FIRST selector with any matching element decides the output
(no fallthrough), and a rejected fallback candidate (empty after normalization
or containing a login-wall phrase) is treated as absent, so the next metadata
candidate is tried. -/
def claimExtractPostText (doc : Doc) : String :=
  match PRIMARY_TEXT_SELECTORS.find? (fun sel => !(doc.select sel).isEmpty) with
  | some sel => strIntercalate "\n\n" (dedupList (chunksOf doc sel))
  | none =>
    let candidates := [normalizeWhitespaceOpt (doc.metaContent "og:description"),
                       normalizeWhitespaceOpt (doc.metaContent "og:title")]
    match candidates.find? (fun c => !isLowValueFallbackText c) with
    | some c => c
    | none => ""

/-- The amended reading of `extractPostText`, matching the code: the first
selector whose matches yield any NONEMPTY normalized text decides the output;
the metadata fallback selects the description when it is nonempty after
normalization and the title otherwise, and returns the empty string when the
SELECTED candidate is empty or contains a login-wall phrase (a login-walled
description does not fall through to the title). -/
def amendedExtractPostText (doc : Doc) : String :=
  match PRIMARY_TEXT_SELECTORS.find? (fun sel => !(chunksOf doc sel).isEmpty) with
  | some sel => strIntercalate "\n\n" (dedupList (chunksOf doc sel))
  | none =>
    let ogDescription := normalizeWhitespaceOpt (doc.metaContent "og:description")
    let ogTitle := normalizeWhitespaceOpt (doc.metaContent "og:title")
    let fallback := if ogDescription ≠ "" then ogDescription else ogTitle
    if isLowValueFallbackText fallback then "" else fallback

theorem textChunksLoop_eq (doc : Doc) (sels : List String) :
    textChunksLoop doc [] sels =
      match sels.find? (fun sel => !(chunksOf doc sel).isEmpty) with
      | some sel => chunksOf doc sel
      | none => [] := by
  induction sels with
  | nil => rfl
  | cons sel rest ih =>
    simp only [textChunksLoop, List.nil_append, List.find?]
    cases hc : chunksOf doc sel with
    | nil =>
      simp only [hc, List.isEmpty_nil, Bool.not_true]
      simpa [textChunksLoop, hc] using ih
    | cons c cs =>
      simp [textChunksLoop, hc]

/-- C5 (amended): `extractPostText` returns, for the first primary selector whose
matches yield any nonempty normalized text, those chunks deduplicated and joined
with a blank-line separator, without falling through further; otherwise it falls
back to the og:description (when nonempty after normalization) else the
og:title, returning the empty string when the selected fallback is empty or
contains a login-wall phrase. -/
theorem extractPostText_amended_spec (doc : Doc) :
    extractPostText doc = amendedExtractPostText doc := by
  simp only [extractPostText, amendedExtractPostText]
  rw [textChunksLoop_eq]
  cases hf : PRIMARY_TEXT_SELECTORS.find? (fun sel => !(chunksOf doc sel).isEmpty) with
  | some sel =>
    have hp := List.find?_some hf
    have hlen : (chunksOf doc sel).length > 0 := by
      cases h2 : chunksOf doc sel <;> simp_all
    simp [hlen]
  | none => simp

def fxWsElement : Element :=
  { attr := fun _ => none, text := "   ", innerHtml := none,
    parentClassAttr := none, closestClassAttr := none,
    inPostMediaContainer := false }

def fxC5Doc : Doc :=
  { select := fun s =>
      if s = ".attributed-text-segment-list__content" then [fxWsElement]
      else if s = ".update-components-update-v2__commentary" then [fxTextElement]
      else [] }

def fxDescElement : Element :=
  { attr := fun a => if a = "content" then some "Please sign in to continue" else none,
    text := "", innerHtml := none, parentClassAttr := none,
    closestClassAttr := none, inPostMediaContainer := false }

def fxTitleMetaElement : Element :=
  { attr := fun a => if a = "content" then some "A great post about proofs" else none,
    text := "", innerHtml := none, parentClassAttr := none,
    closestClassAttr := none, inPostMediaContainer := false }

def fxC5DocB : Doc :=
  { select := fun s =>
      if s = "meta[property=\"og:description\"]" then [fxDescElement]
      else if s = "meta[property=\"og:title\"]" then [fxTitleMetaElement]
      else [] }

/-- C5 counterexample: (a) the first primary selector matches an element whose
text normalizes to nothing, yet the code falls through to the second selector
and returns its text, while the claim's reading (first selector with ANY
matching element, no fallthrough) yields the empty string; (b) a login-walled
og:description is NOT treated as absent by the code — it suppresses the
fallback entirely instead of falling through to the og:title. -/
theorem extractPostText_claim_counterexample :
    extractPostText fxC5Doc = "hello" ∧
    claimExtractPostText fxC5Doc = "" ∧
    extractPostText fxC5DocB = "" ∧
    claimExtractPostText fxC5DocB = "A great post about proofs" ∧
    extractPostText fxC5Doc ≠ claimExtractPostText fxC5Doc ∧
    extractPostText fxC5DocB ≠ claimExtractPostText fxC5DocB := by
  exact ⟨by decide, by decide, by decide, by decide, by decide, by decide⟩

/-! ## Size caps (C6) -/

/-- C6: the three media-URL lists of every successful scrape result and the list
of download requests actually attempted by `downloadLinkedInMedia` never exceed
40 entries, whatever the document, oracles or request list contain. -/
theorem media_lists_never_exceed_cap (rx : RegexOracle) (validator : String → Bool)
    (embedNet : HtmlNet) (page : Except Unit HtmlResponse) (r : ExtractionResult)
    (mediaEntries : Option (List RawMediaEntry))
    (h : scrapeOnce rx validator embedNet page = .ok r) :
    r.imageUrls.length ≤ 40 ∧ r.videoUrls.length ≤ 40 ∧
    r.documentUrls.length ≤ 40 ∧
    (attemptedEntries validator mediaEntries).length ≤ 40 := by
  rcases scrapeOnce_ok_inv h with ⟨response, _, rfl⟩
  refine ⟨?_, ?_, ?_, List.length_take_le _ _⟩ <;>
    simp only [assembleResult] <;> exact List.length_take_le _ _

/-- Witness for C6 at a concrete successful scrape and request list. -/
theorem media_lists_never_exceed_cap_witness :
    scrapeOnce fxRx fxValidator fxEmbedNet (.ok ⟨200, fxDoc⟩) = .ok fxResult ∧
    fxResult.imageUrls.length ≤ 40 ∧
    (attemptedEntries fxValidator fxEntries).length ≤ 40 := by
  refine ⟨by decide, ?_, ?_⟩
  · exact (media_lists_never_exceed_cap fxRx fxValidator fxEmbedNet
      (.ok ⟨200, fxDoc⟩) fxResult fxEntries (by decide)).1
  · exact (media_lists_never_exceed_cap fxRx fxValidator fxEmbedNet
      (.ok ⟨200, fxDoc⟩) fxResult fxEntries (by decide)).2.2.2

/-! ## Embed frame resolver bounds and isolation (C7) -/

/-- C7: the embed-frame resolver never fetches more than 3 discovered frame
URLs; a frame whose fetch fails (thrown error or non-success status)
contributes exactly the empty media sets; and the success or failure of the
overall scrape is entirely independent of the embed-frame network. -/
theorem embed_frames_bounded_and_isolated (rx : RegexOracle)
    (validator : String → Bool) (doc : Doc) (embedNet embedNet' : HtmlNet)
    (page : Except Unit HtmlResponse) (frameUrl : String)
    (hfail : embedNet frameUrl = .error () ∨
      ∃ resp, embedNet frameUrl = .ok resp ∧ statusOk resp.status = false) :
    (extractEmbedFrameUrls validator doc).length ≤ 3 ∧
    embedFrameContribution rx validator embedNet frameUrl = emptyMediaSets ∧
    (scrapeOnce rx validator embedNet page).isOk =
      (scrapeOnce rx validator embedNet' page).isOk := by
  refine ⟨?_, ?_, ?_⟩
  · simp only [extractEmbedFrameUrls]
    exact List.length_take_le _ _
  · unfold embedFrameContribution
    rcases hfail with h | ⟨resp, h1, h2⟩
    · rw [h]
    · rw [h1]
      simp [h2]
  · simp only [scrapeOnce]
    cases page with
    | error e => rfl
    | ok response =>
      have htext : (assembleResult rx validator embedNet response.doc).text =
          (assembleResult rx validator embedNet' response.doc).text := rfl
      dsimp only
      rw [htext]
      split_ifs <;> simp [Except.isOk, Except.toBool]

/-- Witness for C7: a frame whose fetch throws contributes nothing, and swapping
the entire embed network does not change the scrape outcome. -/
theorem embed_frames_bounded_and_isolated_witness :
    (extractEmbedFrameUrls fxValidator fxDoc).length ≤ 3 ∧
    embedFrameContribution fxRx fxValidator fxEmbedNet fxUrl = emptyMediaSets ∧
    (scrapeOnce fxRx fxValidator fxEmbedNet (.ok ⟨200, fxDoc⟩)).isOk =
      (scrapeOnce fxRx fxValidator (fun _ => .ok ⟨500, fxDoc⟩)
        (.ok ⟨200, fxDoc⟩)).isOk :=
  embed_frames_bounded_and_isolated fxRx fxValidator fxDoc fxEmbedNet
    (fun _ => .ok ⟨500, fxDoc⟩) (.ok ⟨200, fxDoc⟩) fxUrl (Or.inl rfl)

/-! ## Invalid post URLs (C8) -/

/-- C8: for every input URL failing the post-URL shape check,
`scrapeLinkedInPost` returns the `INVALID_URL` extraction error with an empty
retry log and zero attempts executed — the outcome is a constant independent of
every network oracle, so no network call is made and no retry is consumed. -/
theorem invalid_url_rejected_without_network (rx : RegexOracle)
    (validator : String → Bool) (embedNet : HtmlNet)
    (pages : Nat → Except Unit HtmlResponse) (postUrl : String)
    (h : isValidLinkedInPostUrl postUrl = false) :
    scrapeLinkedInPost rx validator embedNet pages postUrl =
      ⟨.error (.extraction ⟨.INVALID_URL, "Invalid LinkedIn post URL"⟩), [], 0⟩ := by
  simp [scrapeLinkedInPost, h]

/-- Witness for C8 at a concrete non-LinkedIn URL. -/
theorem invalid_url_rejected_without_network_witness :
    isValidLinkedInPostUrl "https://example.com/page" = false ∧
    scrapeLinkedInPost fxRx fxValidator fxEmbedNet (fun _ => .error ())
      "https://example.com/page" =
      ⟨.error (.extraction ⟨.INVALID_URL, "Invalid LinkedIn post URL"⟩), [], 0⟩ :=
  ⟨by decide, invalid_url_rejected_without_network fxRx fxValidator fxEmbedNet
    (fun _ => .error ()) "https://example.com/page" (by decide)⟩

/-! ## Filename extensions (C9) -/

/-- A media network answering every fetch with an oracle-controlled
`content-type: constructor` header. -/
def fxProtoNet : MediaNet := fun _ => .ok ⟨200, some "constructor", [7]⟩

/-- C9: the claimed derivation chain — extension from the MIME→extension table,
else the URL's own path suffix, else the fixed default — is broken by the code:
`MIME_TO_EXTENSION[mime]` is an object-literal property read, so the lowercase
content types `constructor` and `__proto__` find truthy values inherited from
`Object.prototype`, and the resulting extension comes from none of the three
claimed sources.  The record is reachable end-to-end: `inferMediaType` accepts
the response via the `/dms/image/` path branch, so `downloadOne` returns it
with the polluted filename. -/
theorem mediaFilename_prototype_pollution :
    mimeToExtensionTable "constructor" = none ∧
    extensionFromUrl fxUrl = none ∧
    mediaExtension "constructor" fxUrl =
      "function Object() \x7b [native code] \x7d" ∧
    mediaFilename 0 "image" "constructor" fxUrl =
      "linkedin-image-1.function Object() \x7b [native code] \x7d" ∧
    inferMediaType "image" "constructor" fxUrl = some "image" ∧
    downloadOne fxProtoNet 0 ⟨fxUrl, "image"⟩ =
      some ⟨fxUrl, [7], "image", "constructor",
        "linkedin-image-1.function Object() \x7b [native code] \x7d"⟩ ∧
    mimeToExtensionTable "__proto__" = none ∧
    mediaExtension "__proto__" fxUrl = "[object Object]" := by
  exact ⟨by decide, by decide, by decide, by decide, by decide, by decide,
    by decide, by decide⟩

/-! ## Degenerate download inputs (C10) -/

theorem dedupMediaStep_skip {v : String → Bool}
    {acc : List MediaRequest × List String} {entry : RawMediaEntry}
    (h : normalizeWhitespaceOpt entry.url = "" ∨
      v (normalizeWhitespaceOpt entry.url) = false) :
    dedupMediaStep v acc entry = acc := by
  unfold dedupMediaStep
  rcases h with h | h <;> simp [h]

/-- C10: when the request list is null/undefined (`none`), empty, or contains no
entry with a nonempty URL passing the allowed-media-URL predicate,
`downloadLinkedInMedia` returns the empty list and attempts no fetch (the
attempted-entry list is empty, for every network oracle and schedule). -/
theorem download_degenerate_requests_empty (validator : String → Bool)
    (net : MediaNet) (sched : List Nat) (mediaEntries : Option (List RawMediaEntry))
    (h : ∀ entry ∈ mediaEntries.getD [],
      normalizeWhitespaceOpt entry.url = "" ∨
      validator (normalizeWhitespaceOpt entry.url) = false) :
    downloadLinkedInMedia validator net sched mediaEntries = [] ∧
    attemptedEntries validator mediaEntries = [] := by
  have hded : dedupMediaEntries validator mediaEntries = [] := by
    unfold dedupMediaEntries
    have : ∀ (l : List RawMediaEntry), (∀ entry ∈ l,
        normalizeWhitespaceOpt entry.url = "" ∨
        validator (normalizeWhitespaceOpt entry.url) = false) →
        ∀ acc, l.foldl (dedupMediaStep validator) acc = acc := by
      intro l
      induction l with
      | nil => intro _ acc; rfl
      | cons x xs ih =>
        intro hl acc
        rw [List.foldl_cons, dedupMediaStep_skip (hl x (List.mem_cons_self x xs))]
        exact ih (fun e he => hl e (List.mem_cons_of_mem x he)) acc
    rw [this (mediaEntries.getD []) h (([], []))]
  constructor
  · simp [downloadLinkedInMedia, hded]
  · simp [attemptedEntries, hded]

def fxBadEntries : Option (List RawMediaEntry) :=
  some [⟨some "   ", none⟩, ⟨some "https://evil.example/x", some "image"⟩, ⟨none, none⟩]

/-- Witness for C10: a list with only whitespace, disallowed-host and absent
URLs produces the empty result and no attempted fetch. -/
theorem download_degenerate_requests_empty_witness :
    (∀ entry ∈ fxBadEntries.getD [],
      normalizeWhitespaceOpt entry.url = "" ∨
      fxValidator (normalizeWhitespaceOpt entry.url) = false) ∧
    downloadLinkedInMedia fxValidator fxNet [0] fxBadEntries = [] ∧
    attemptedEntries fxValidator fxBadEntries = [] := by
  refine ⟨by decide, ?_⟩
  exact download_degenerate_requests_empty fxValidator fxNet [0] fxBadEntries
    (by decide)

end LinkedInScrape
